import Mathlib

/-!
Shallow embedding of the sieve-action execution runtime of `imap/lmtp_sieve.c`
(cyrus-imapd).  Pure C helpers become Lean functions; stateful handlers become
explicit state passing over a durable-ledger / send-trace state; outcomes of
external collaborators (SMTP transport, mailbox store, filesystem) are passed
in as explicit parameters.  Machine integers that matter are modelled as `Nat`
(`time_t` values, with `0` meaning "absent", exactly as `duplicate_check`
returns `0` for a missing record).
-/

namespace LmtpSieve

/-- Return values of a sieve callback: `SIEVE_OK`, `SIEVE_FAIL`, `SIEVE_DONE`. -/
inductive SRes where
  | ok
  | fail
  | done
  deriving DecidableEq, Repr

/-- Result of a mailbox-store operation (`deliver_mailbox`,
`mboxlist_createmailbox`, `mboxlist_lookup`): success, the distinguished
`IMAP_MAILBOX_NONEXISTENT` error, or any other error code. -/
inductive StoreRes where
  | ok
  | nonexistent
  | other (e : Nat)
  deriving DecidableEq, Repr

/-- `duplicate_key_t` from duplicate.h: the ledger key `(id, to, date)`
(the `to` field is named `dto` here since `to` is reserved in Lean). -/
structure duplicate_key_t where
  id : String
  dto : String
  date : String
  deriving DecidableEq, Repr

/-- The duplicate-suppression ledger: a durable map from key to a `time_t`
value.  Keys are kept unique (`duplicate_mark` is an idempotent upsert). -/
abbrev Ledger := List (duplicate_key_t × Nat)

/-- First binding of a key in the ledger, if any. -/
def ledgerFind (l : Ledger) (k : duplicate_key_t) : Option Nat :=
  match l with
  | [] => none
  | (k', t) :: rest => if k' = k then some t else ledgerFind rest k

/-- Remove all bindings of a key (helper for the upsert `duplicate_mark`). -/
def ledgerErase (l : Ledger) (k : duplicate_key_t) : Ledger :=
  match l with
  | [] => []
  | (k', t) :: rest => if k' = k then ledgerErase rest k else (k', t) :: ledgerErase rest k

/-- `duplicate_check`: returns the stored `time_t` for the key, or `0` when no
record exists (the C function returns `0` on absence, and callers test
truthiness). -/
def duplicate_check (l : Ledger) (k : duplicate_key_t) : Nat :=
  match ledgerFind l k with
  | some t => t
  | none => 0

/-- `duplicate_mark`: idempotent upsert of `key -> t` into the ledger. -/
def duplicate_mark (l : Ledger) (k : duplicate_key_t) (t : Nat) : Ledger :=
  (k, t) :: ledgerErase l k

/-- `make_sieve_db`: builds the per-user sieve duplicate-db name
`"." ++ user ++ ".sieve."`. -/
def make_sieve_db (user : String) : String :=
  "." ++ user ++ ".sieve."

/-! ### duplicate-check / duplicate-track handlers (`sieve_duplicate_check`,
`sieve_duplicate_track`) -/

/-- The ledger key used by the generic duplicate extension:
`(caller-supplied id, make_sieve_db(userid), "")`. -/
def sieveDuplicateKey (id userid : String) : duplicate_key_t :=
  ⟨id, make_sieve_db userid, ""⟩

/-- `sieve_duplicate_check`: returns `1` (`true`) iff an active tracking
record exists, i.e. `duplicate_check` returns a nonzero time `t` with
`now < t`. -/
def sieve_duplicate_check (l : Ledger) (now : Nat) (id userid : String) : Bool :=
  let t := duplicate_check l (sieveDuplicateKey id userid)
  decide (t ≠ 0) && decide (now < t)

/-- `sieve_duplicate_track`: unconditionally marks the ledger with
`now + seconds` under the same key. -/
def sieve_duplicate_track (l : Ledger) (now : Nat) (id userid : String)
    (seconds : Nat) : Ledger :=
  duplicate_mark l (sieveDuplicateKey id userid) (now + seconds)

/-! ### redirect handler (`sieve_redirect`) -/

/-- A spool header (name/body pair) of the `hdrcache`. -/
structure Hdr where
  name : String
  body : String
  deriving DecidableEq, Repr

/-- `message_data_t` (from lmtpd.h, as used by this file): the one inbound
message.  `hdrcache` is the mutable spool header cache; `rawheaders` and
`rawbody` are the two sections of the immutable spool file `m->f` (split at
`body_offset`); `id`, `return_path` and `date` are the envelope/metadata
fields consulted by the handlers. -/
structure message_data_t where
  hdrcache : List Hdr
  rawheaders : String
  rawbody : String
  id : Option String
  return_path : Option String
  date : String
  deriving DecidableEq, Repr

/-- Handler-visible state threaded through a redirect invocation: the durable
ledger plus a count of `send_forward` invocations (outbound sends). -/
structure RedirectState where
  ledger : Ledger
  sends : Nat
  deriving DecidableEq, Repr

/-- The ledger key `sieve_redirect` builds when the message has an id:
`dkey.id = "<msgid>-<addr>"` (the `snprintf "%s-%s"`), `dkey.to` the user's
sieve db, `dkey.date = m->date`. -/
def redirectDupKey (userid mid date addr : String) : duplicate_key_t :=
  ⟨mid ++ "-" ++ addr, make_sieve_db userid, date⟩

/-- The key the spec's words describe for the redirect ledger:
`(message-id, target-address, "")`. -/
def specRedirectDupKey (mid addr : String) : duplicate_key_t :=
  ⟨mid, addr, ""⟩

/-- `sieve_redirect`.  External outcomes are explicit parameters: `specialOk`
is whether `setup_special_delivery`'s `append_newstage` succeeds (consulted
only when the script has edited headers), `sendRes` is the `send_forward`
result (`0` = success), `now` is `time(NULL)` at the mark. -/
def sieve_redirect (userid : String) (edited : Bool) (addr : String)
    (m : message_data_t) (specialOk : Bool) (sendRes : Nat) (now : Nat)
    (st : RedirectState) : SRes × RedirectState :=
  match m.id with
  | some mid =>
      let dkey := redirectDupKey userid mid m.date addr
      if duplicate_check st.ledger dkey ≠ 0 then
        (SRes.ok, st)
      else if edited ∧ ¬ specialOk then (SRes.fail, st)
      else
        let st' : RedirectState := { st with sends := st.sends + 1 }
        if sendRes = 0 then
          (SRes.ok, { st' with ledger := duplicate_mark st'.ledger dkey now })
        else (SRes.fail, st')
  | none =>
      if edited ∧ ¬ specialOk then (SRes.fail, st)
      else
        let st' : RedirectState := { st with sends := st.sends + 1 }
        if sendRes = 0 then (SRes.ok, st') else (SRes.fail, st')

/-! ### vacation handlers (`autorespond`, `send_response`) -/

/-- The `hex` digit table. -/
def hexDigits : List Char :=
  ['0', '1', '2', '3', '4', '5', '6', '7', '8', '9', 'A', 'B', 'C', 'D', 'E', 'F']

/-- Hex encoding of the triggering hash (`id[i*2] = hex[b/16]`,
`id[i*2+1] = hex[b%16]`). -/
def hexOfHash (hash : List Nat) : String :=
  String.mk (hash.foldr
    (fun b acc => hexDigits.getD (b / 16) '0' :: hexDigits.getD (b % 16) '0' :: acc) [])

/-- The vacation rate-limit ledger key: hex hash id, `dkey.to` the plain
userid (not a sieve-db name), empty date. -/
def vacationDupKey (hash : List Nat) (userid : String) : duplicate_key_t :=
  ⟨hexOfHash hash, userid, ""⟩

/-- `autorespond`: consult the ledger and, when responding is allowed, mark
it with `now + seconds` immediately (before any response is composed). -/
def autorespond (l : Ledger) (now : Nat) (hash : List Nat) (userid : String)
    (seconds : Nat) : SRes × Ledger :=
  let dkey := vacationDupKey hash userid
  let t := duplicate_check l dkey
  let ret : SRes := if t ≠ 0 then (if now ≥ t then SRes.ok else SRes.done) else SRes.ok
  if ret = SRes.ok then (SRes.ok, duplicate_mark l dkey (now + seconds))
  else (ret, l)

/-- Outcome of one vacation action: handler result, resulting ledger, and
whether a response was actually sent (SMTP send succeeded). -/
structure VacationOutcome where
  ret : SRes
  ledger : Ledger
  sent : Bool
  deriving DecidableEq, Repr

/-- One vacation action as the engine drives it: `autorespond`, and when it
allows, `send_response` (which on SMTP success additionally marks the ledger
under the freshly generated outgoing message id, key
`(outmsgid, sieve-db, m->date)`, and returns `SIEVE_OK`; on SMTP failure it
returns `SIEVE_FAIL` without that mark).  `sendRes` is the SMTP outcome. -/
def vacationRun (l : Ledger) (now : Nat) (hash : List Nat) (userid : String)
    (seconds : Nat) (outmsgid date : String) (sendRes : Nat) : VacationOutcome :=
  match autorespond l now hash userid seconds with
  | (SRes.ok, l') =>
      if sendRes = 0 then
        ⟨SRes.ok, duplicate_mark l' ⟨outmsgid, make_sieve_db userid, date⟩ now, true⟩
      else ⟨SRes.fail, l', false⟩
  | (r, l') => ⟨r, l', false⟩

/-! ### reject handler (`sieve_reject`) -/

/-- The `isascii` scan over the reason text: encoding is needed iff some
character is not ASCII. -/
def needEncode (msg : String) : Bool :=
  msg.toList.any (fun c => 128 ≤ c.toNat)

/-- Split a character list at every separator (the pieces between
separators, empties included). -/
def splitBy (p : Char → Bool) : List Char → List (List Char)
  | [] => [[]]
  | c :: rest =>
      let r := splitBy p rest
      if p c then [] :: r
      else
        match r with
        | [] => [[c]]
        | h :: t => (c :: h) :: t

/-- Modelled from the spec: `charset_qpencode_mimebody` (external to this
file) quoted-printable-encodes the reason when an extended reject has a
non-ASCII reason.  The claims never inspect the encoded bytes, so a simple
per-character QP encoding stands in. -/
def charset_qpencode_mimebody (s : String) : String :=
  String.join (s.toList.map (fun c =>
    if c.toNat < 128 && c != '=' then String.mk [c]
    else "=" ++ String.mk [hexDigits.getD (c.toNat / 16 % 16) '0',
                           hexDigits.getD (c.toNat % 16) '0']))

/-- `tok_initm(&tok, msg, "\r\n", 0)` + repeated `tok_next`: the reason's
lines are the maximal nonempty runs between CR/LF characters. -/
def rejectLines (msg : String) : List String :=
  ((splitBy (fun c => c = '\r' || c = '\n') msg.toList).filter
    (fun t => !t.isEmpty)).map String.mk

/-- The `550` response block: `"550-5.7.1 <line>"` for every line that has a
successor, `"550 5.7.1 <line>"` for the final one (the C loop prints `cur`
with a continuation marker exactly while `tok_next` yields a `next`). -/
def lmtpRespLines : List String → List String
  | [] => []
  | [l] => ["550 5.7.1 " ++ l ++ "\r\n"]
  | l :: l' :: rest => ("550-5.7.1 " ++ l ++ "\r\n") :: lmtpRespLines (l' :: rest)

/-- Observable effects of one `sieve_reject` invocation: the handler result,
the recipient status (`some resp` iff `msg_setrcpt_status` recorded
`LMTP_MESSAGE_REJECTED` with response block `resp`), and whether an MDN
bounce was sent via `send_rejection`. -/
structure RejectEffects where
  ret : SRes
  rcptStatus : Option (List String)
  bounceSent : Bool
  deriving DecidableEq, Repr

/-- `sieve_reject`.  `sendRes` is the `send_rejection` SMTP outcome
(`0` = success), consulted only on the bounce path. -/
def sieve_reject (is_extended use_lmtp_reject : Bool) (msg : String)
    (return_path : Option String) (sendRes : Nat) : RejectEffects :=
  let ne := needEncode msg
  if is_extended || (use_lmtp_reject && !ne) then
    let m := if ne then charset_qpencode_mimebody msg else msg
    ⟨SRes.ok, some (lmtpRespLines (rejectLines m)), false⟩
  else
    match return_path with
    | none => ⟨SRes.fail, none, false⟩
    | some rp =>
        if rp = "" then ⟨SRes.ok, none, false⟩
        else if sendRes = 0 then ⟨SRes.ok, none, true⟩
        else ⟨SRes.fail, none, true⟩

/-! ### fileinto handler (`sieve_fileinto`, `autosieve_createfolder`) -/

/-- Whitespace trim applied to each token by `STRARRAY_TRIM`. -/
def trimBlanks (l : List Char) : List Char :=
  ((l.dropWhile (fun c => c = ' ' || c = '\t' || c = '\r' || c = '\n')).reverse.dropWhile
    (fun c => c = ' ' || c = '\t' || c = '\r' || c = '\n')).reverse

/-- `strarray_split(subf, "|", STRARRAY_TRIM)`: tokenize on `|` (empty
fields dropped, strtok-style), trimming each token. -/
def strarray_split_pipe (s : String) : List String :=
  ((splitBy (fun c => c = '|') s.toList).filter (fun t => !t.isEmpty)).map
    (fun t => String.mk (trimBlanks t))

/-- Modelled from the spec: `mboxname_user_mbox` (external to this file)
builds the internal name of folder `name` under `userid`'s mailbox tree. -/
def mboxname_user_mbox (userid name : String) : String :=
  "user." ++ userid ++ "." ++ name

/-- Modelled from the spec: `mboxname_from_external` (external to this file)
resolves an externally-named mailbox to an internal store identifier in the
user's namespace. -/
def mboxname_from_external (extname : String) (userid : Option String) : String :=
  match userid with
  | some u => "user." ++ u ++ "." ++ extname
  | none => extname

/-- `autosieve_createfolder`: returns the store result plus whether folder
creation (`mboxlist_createmailbox`) was actually attempted.  `createRes` is
the external `mboxlist_createmailbox` outcome. -/
def autosieve_createfolder (anyfolder : Bool) (autofolders : Option String)
    (userid internalname : Option String) (createsievefolder : Bool)
    (createRes : StoreRes) : StoreRes × Bool :=
  match userid, internalname with
  | some u, some i =>
      let create : Bool :=
        if anyfolder then true
        else
          match autofolders with
          | some subf =>
              createsievefolder ||
                (strarray_split_pipe subf).any
                  (fun n => decide (mboxname_user_mbox u n = i))
          | none => createsievefolder
      if create then
        match createRes with
        | StoreRes.ok => (StoreRes.ok, true)
        | r => (r, true)
      else (StoreRes.nonexistent, false)
  | _, _ => (StoreRes.nonexistent, false)

/-- The autocreate policy of the spec: a global "any folder" override, OR an
explicit per-rule create flag, OR the target matches the configured
auto-create name list. -/
def autocreatePolicy (anyfolder : Bool) (autofolders : Option String)
    (userid intname : String) (do_create : Bool) : Bool :=
  anyfolder || do_create ||
    (match autofolders with
     | some subf =>
         (strarray_split_pipe subf).any
           (fun n => decide (mboxname_user_mbox userid n = intname))
     | none => false)

/-- Observable effects of one `sieve_fileinto` invocation: result, the error
code passed to `error_message` on failure, how many times `deliver_mailbox`
ran, and whether autocreation was attempted. -/
structure FileintoRes where
  ret : SRes
  err : Option StoreRes
  deliveries : Nat
  createAttempted : Bool
  deriving DecidableEq, Repr

/-- `sieve_fileinto`.  External outcomes are parameters: `specialOk` for
`setup_special_delivery` (consulted only when headers were edited),
`suLookup` for the `mboxlist_lookup` of the requested special-use folder,
`deliver1`/`deliver2` for the two possible `deliver_mailbox` calls and
`createRes` for `mboxlist_createmailbox`. -/
def sieve_fileinto (anyfolder : Bool) (autofolders : Option String)
    (specialuse : Option String) (mailbox : String) (do_create : Bool)
    (userid : Option String) (edited specialOk : Bool) (suLookup : StoreRes)
    (deliver1 createRes deliver2 : StoreRes) : FileintoRes :=
  if edited ∧ ¬ specialOk then ⟨SRes.fail, none, 0, false⟩
  else
    let intname : String :=
      match specialuse with
      | some su =>
          if suLookup = StoreRes.ok then mboxname_from_external su userid
          else mboxname_from_external mailbox userid
      | none => mboxname_from_external mailbox userid
    match deliver1 with
    | StoreRes.ok => ⟨SRes.ok, none, 1, false⟩
    | StoreRes.nonexistent =>
        match autosieve_createfolder anyfolder autofolders userid (some intname)
            do_create createRes with
        | (StoreRes.ok, att) =>
            match deliver2 with
            | StoreRes.ok => ⟨SRes.ok, none, 2, att⟩
            | e => ⟨SRes.fail, some e, 2, att⟩
        | (e, att) => ⟨SRes.fail, some e, 1, att⟩
    | e => ⟨SRes.fail, some e, 1, false⟩

/-! ### header folding (`dump_header`) -/

/-- `isblank`: space or horizontal tab. -/
def isblank_c (c : Char) : Bool :=
  c = ' ' || c = '\t'

/-- Length of the maximal blank prefix (the `while (isblank(*++p));` skip:
when the chunk starts with a blank, scanning resumes at the first non-blank,
which is exactly the end of the blank run). -/
def blankRun : List Char → Nat
  | [] => 0
  | c :: rest => if isblank_c c then blankRun rest + 1 else 0

/-- The scanning `for` loop of `dump_header`, started at offset `i` of the
current chunk: returns the final offset `p`, the tracked `last_sp`, and
whether the loop ran off the end of the string (`!*p`).  `slen` is
`strlen(mimehdr)` for the current chunk, `maxlen` the current fold column
budget. -/
def dumpScan (l : List Char) (i : Nat) (lastSp : Option Nat)
    (slen maxlen : Nat) : Nat × Option Nat × Bool :=
  match l with
  | [] => (i, lastSp, true)
  | c :: rest =>
      if c = '\t' then (i, lastSp, false)
      else if c = ' ' then
        if rest.head? = some ' ' then (i, lastSp, false)
        else if slen ≤ maxlen then dumpScan rest (i + 1) lastSp slen maxlen
        else if lastSp = none then dumpScan rest (i + 1) (some i) slen maxlen
        else if i ≤ maxlen then dumpScan rest (i + 1) (some i) slen maxlen
        else dumpScan rest (i + 1) lastSp slen maxlen
      else dumpScan rest (i + 1) lastSp slen maxlen

/-- One iteration of the folding `while` loop: the length of the chunk
emitted from the current string (`p - mimehdr` at the final `fprintf`). -/
def dumpIter (s : List Char) (maxlen : Nat) : Nat :=
  let start := blankRun s
  match dumpScan (s.drop start) start none s.length maxlen with
  | (p, lastSp, atEnd) =>
      if atEnd then
        match lastSp with
        | some q => q
        | none => p
      else p

/-- The folding `while` loop, fuel-indexed (each iteration consumes at least
one character — `dumpIter_pos` below — so `s.length` fuel is exact). -/
def dumpChunksFuel : Nat → List Char → Nat → List (List Char)
  | 0, _, _ => []
  | fuel + 1, s, maxlen =>
      if s.isEmpty then []
      else
        let p := dumpIter s maxlen
        s.take p :: dumpChunksFuel fuel (s.drop p) 78

/-- The chunks of the folded header value, in emission order. -/
def dumpChunks (s : List Char) (maxlen : Nat) : List (List Char) :=
  dumpChunksFuel s.length s maxlen

/-- `maxlen = 78 - (strlen(name) + 2)` computed in `size_t`: the subtraction
wraps modulo `2^64` for names longer than 76 bytes. -/
def dumpMaxlen (name : String) : Nat :=
  ((78 - ((name.length : Int) + 2)) % (2 ^ 64)).toNat

/-- Modelled from the spec: `charset_encode_mimeheader` (external to this
file) MIME-encodes a header value only "if it contains non-ASCII bytes"; on
pure-ASCII values — the only values the folding claims concern — it is the
identity, which is how it is modelled here. -/
def charset_encode_mimeheader (value : String) : String :=
  value

/-- `dump_header`: the serialized (possibly folded) header line.  A CRLF is
emitted before a chunk exactly when the chunk starts with a blank (the
`isblank(*p)` fold write); the chunk itself is then printed from `mimehdr`
onward, so the blank run itself becomes the folding whitespace of the
continuation line. -/
def dump_header (name value : String) : String :=
  let chunks := dumpChunks (charset_encode_mimeheader value).toList (dumpMaxlen name)
  name ++ ": " ++
    String.join (chunks.map (fun c =>
      (match c.head? with
       | some ch => if isblank_c ch then "\r\n" else ""
       | none => "") ++ String.mk c)) ++ "\r\n"

/-- Does the list contain two consecutive spaces? -/
def hasDblSpace : List Char → Bool
  | c1 :: c2 :: rest => (c1 = ' ' && c2 = ' ') || hasDblSpace (c2 :: rest)
  | _ => false

/-- Index `p` is the nearest preceding single space at or before the fold
budget `m` (`maxlen`): a space sits at `p ≤ m` and no later index `≤ m`
holds a space. -/
def nearestSpaceFold (s : List Char) (m p : Nat) : Prop :=
  s.get? p = some ' ' ∧ p ≤ m ∧
    ∀ j, j < s.length → p < j → j ≤ m → s.get? j ≠ some ' '

instance (s : List Char) (m p : Nat) : Decidable (nearestSpaceFold s m p) := by
  unfold nearestSpaceFold
  infer_instance

/-- Index `j` is an existing fold point: a literal tab, or the first space
of a double space. -/
def foldBreakAt (s : List Char) (j : Nat) : Prop :=
  s.get? j = some '\t' ∨ (s.get? j = some ' ' ∧ s.get? (j + 1) = some ' ')

instance (s : List Char) (j : Nat) : Decidable (foldBreakAt s j) := by
  unfold foldBreakAt
  infer_instance

/-! ### header editing, special delivery and keep
(`addheader`, `deleteheader`, `getheader`, `setup_special_delivery`,
`sieve_keep`) -/

/-- `script_data_t`: the per-script context (only the fields the claims
touch). -/
structure script_data_t where
  userid : String
  edited_header : Bool
  deriving DecidableEq, Repr

/-- The state visible to a script execution: the script context, the one
shared inbound message object, and the contents delivered to the local
store so far. -/
structure RunState where
  sd : script_data_t
  msg : message_data_t
  delivered : List String
  deriving DecidableEq, Repr

/-- `spool_append_header`. -/
def spool_append_header (h : Hdr) (cache : List Hdr) : List Hdr :=
  cache ++ [h]

/-- `spool_prepend_header`. -/
def spool_prepend_header (h : Hdr) (cache : List Hdr) : List Hdr :=
  h :: cache

/-- ASCII lowercasing on a code point (the spool cache `lcase`). -/
def lcNat (n : Nat) : Nat :=
  if 65 ≤ n ∧ n ≤ 90 then n + 32 else n

/-- ASCII-case-insensitive character-list equality. -/
def eqIgnoreAsciiCase : List Char → List Char → Bool
  | [], [] => true
  | c :: cs, d :: ds => (lcNat c.toNat == lcNat d.toNat) && eqIgnoreAsciiCase cs ds
  | _, _ => false

/-- Header-name comparison (spool cache keys are lowercased). -/
def hdrNameMatches (a b : String) : Bool :=
  eqIgnoreAsciiCase a.toList b.toList

/-- Modelled from the spec: `spool_remove_header` (spool.c is external to
this file) removes every instance of the named header. -/
def spool_remove_header (name : String) (cache : List Hdr) : List Hdr :=
  cache.filter (fun h => !hdrNameMatches h.name name)

/-- Modelled from the spec: `spool_remove_header_instance` (spool.c is
external to this file) removes the `n`-th (1-based) instance of the named
header. -/
def spool_remove_header_instance (name : String) (n : Nat) (cache : List Hdr) :
    List Hdr :=
  match cache with
  | [] => []
  | h :: rest =>
      if hdrNameMatches h.name name then
        match n with
        | 0 => h :: rest
        | 1 => rest
        | m + 2 => h :: spool_remove_header_instance name (m + 1) rest
      else h :: spool_remove_header_instance name n rest

/-- Modelled from the spec: `msg_getheader` (declared in lmtpengine.h; its
body is external to this file) returns the message's stored header bodies
for a name.  The message's header storage is its `hdrcache` — the very field
`addheader`/`deleteheader` edit and `setup_special_delivery` re-serializes as
the "updated message headers". -/
def msg_getheader (m : message_data_t) (phead : String) : List String :=
  (m.hdrcache.filter (fun h => hdrNameMatches h.name phead)).map Hdr.body

/-- `getheader` callback: `SIEVE_OK` with the bodies, or `SIEVE_FAIL` when
the header is absent (NULL name or NULL lookup). -/
def getheader (m : message_data_t) (phead : Option String) :
    SRes × Option (List String) :=
  match phead with
  | none => (SRes.fail, none)
  | some name =>
      let body := msg_getheader m name
      if body.isEmpty then (SRes.fail, none) else (SRes.ok, some body)

/-- `addheader` callback: prepend or append into the shared `m->hdrcache`
and set `edited_header`. -/
def addheader (st : RunState) (head body : Option String) (index : Int) :
    SRes × RunState :=
  match head, body with
  | some h, some b =>
      let cache :=
        if index < 0 then spool_append_header ⟨h, b⟩ st.msg.hdrcache
        else spool_prepend_header ⟨h, b⟩ st.msg.hdrcache
      (SRes.ok,
       { st with msg := { st.msg with hdrcache := cache },
                 sd := { st.sd with edited_header := true } })
  | _, _ => (SRes.fail, st)

/-- `deleteheader` callback: remove all instances (`index = 0`) or one
instance from the shared `m->hdrcache` and set `edited_header`. -/
def deleteheader (st : RunState) (head : Option String) (index : Nat) :
    SRes × RunState :=
  match head with
  | none => (SRes.fail, st)
  | some h =>
      let cache :=
        if index = 0 then spool_remove_header h st.msg.hdrcache
        else spool_remove_header_instance h index st.msg.hdrcache
      (SRes.ok,
       { st with msg := { st.msg with hdrcache := cache },
                 sd := { st.sd with edited_header := true } })

/-- The serialized header block `setup_special_delivery` writes
(`spool_enum_hdrcache(... &dump_header ...)`). -/
def serializeHeaders (cache : List Hdr) : String :=
  String.join (cache.map (fun h => dump_header h.name h.body))

/-- Content of the `RestagedMessage` spool file built by
`setup_special_delivery`: re-serialized (edited) headers followed by the
original body, copied from the original file starting at `body_offset`. -/
def restagedContent (m : message_data_t) : String :=
  serializeHeaders m.hdrcache ++ m.rawbody

/-- Content of the original spool file `m->f`. -/
def originalContent (m : message_data_t) : String :=
  m.rawheaders ++ m.rawbody

/-- `sieve_keep`: deliver to the default mailbox — the restaged clone when
headers were edited, the original file otherwise.  `specialOk` is the
`append_newstage` outcome inside `setup_special_delivery`; `deliverRes` the
`deliver_local` outcome. -/
def sieve_keep (st : RunState) (specialOk : Bool) (deliverRes : StoreRes) :
    SRes × RunState :=
  if st.sd.edited_header ∧ ¬ specialOk then (SRes.fail, st)
  else
    let content :=
      if st.sd.edited_header then restagedContent st.msg else originalContent st.msg
    match deliverRes with
    | StoreRes.ok => (SRes.ok, { st with delivered := st.delivered ++ [content] })
    | _ => (SRes.fail, st)

/-! ### include-script lookup (`getinclude`) -/

/-- Observable effects of one `getinclude` invocation: the result, and how
many `sieve_find_script` path computations / filesystem lookups ran. -/
structure IncludeOutcome where
  ret : SRes
  lookups : Nat
  deriving DecidableEq, Repr

/-- `strstr` on character lists: does `needle` occur in `hay`? -/
def strstrList (hay needle : List Char) : Bool :=
  match hay with
  | [] => needle.isEmpty
  | c :: rest => needle.isPrefixOf (c :: rest) || strstrList rest needle

/-- `strstr(script, "../") != NULL`. -/
def strstrContains (hay needle : String) : Bool :=
  strstrList hay.toList needle.toList

/-- `getinclude`: reject a script name containing `"../"` outright;
otherwise run `sieve_find_script` (outcome `findRes1`), falling back to the
server-wide global script when a domain-scoped global script is absent on
disk (`statOk = false`, outcome `findRes2`). -/
def getinclude (script : String) (isglobal : Bool) (domain : Option String)
    (findRes1 : Int) (statOk : Bool) (findRes2 : Int) : IncludeOutcome :=
  if strstrContains script "../" then ⟨SRes.fail, 0⟩
  else if findRes1 = 0 ∧ isglobal ∧ domain ≠ none ∧ ¬ statOk then
    ⟨if findRes2 = 0 then SRes.ok else SRes.fail, 2⟩
  else ⟨if findRes1 = 0 then SRes.ok else SRes.fail, 1⟩

/-! ## Ledger lemmas -/

theorem ledgerFind_erase (l : Ledger) (k k' : duplicate_key_t) :
    ledgerFind (ledgerErase l k) k' = if k' = k then none else ledgerFind l k' := by
  induction l with
  | nil => simp [ledgerErase, ledgerFind]
  | cons e rest ih =>
      obtain ⟨k₀, t₀⟩ := e
      by_cases hkk : k' = k
      · subst hkk
        by_cases he : k₀ = k'
        · simp [ledgerErase, he, ih]
        · simp [ledgerErase, he, ledgerFind, ih]
      · by_cases he : k₀ = k
        · have hne : k ≠ k' := fun h => hkk h.symm
          simp [ledgerErase, he, ledgerFind, hkk, hne] at ih ⊢
          exact ih
        · simp [ledgerErase, he, ledgerFind, hkk] at ih ⊢
          by_cases h0 : k₀ = k'
          · simp [h0]
          · simp [h0, ih]

theorem duplicate_check_mark_same (l : Ledger) (k : duplicate_key_t) (t : Nat) :
    duplicate_check (duplicate_mark l k t) k = t := by
  simp [duplicate_check, duplicate_mark, ledgerFind]

theorem duplicate_check_mark_other (l : Ledger) (k k' : duplicate_key_t) (t : Nat)
    (h : k' ≠ k) : duplicate_check (duplicate_mark l k t) k' = duplicate_check l k' := by
  have hne : k ≠ k' := fun e => h e.symm
  simp [duplicate_check, duplicate_mark, ledgerFind, hne, ledgerFind_erase, h]

theorem make_sieve_db_ne (u : String) : make_sieve_db u ≠ u := by
  intro h
  have h2 := congrArg String.length h
  rw [make_sieve_db, String.length_append, String.length_append] at h2
  have e1 : String.length "." = 1 := rfl
  have e2 : String.length ".sieve." = 7 := rfl
  rw [e1, e2] at h2
  omega

/-! ## Claim C8: duplicate-check / duplicate-track semantics -/

/-- C8: a duplicate-check is "duplicate" exactly when a ledger record exists
for the caller-supplied id (under the sieve-db target and empty date) with
expiry strictly greater than `now`; an absent record, or one with expiry at
or before `now`, is not a duplicate.  A duplicate-track unconditionally
upserts expiry `now + seconds`, regardless of any existing record. -/
theorem sieve_duplicate_check_track_spec (l : Ledger) (now : Nat)
    (id userid : String) (seconds : Nat) :
    (sieve_duplicate_check l now id userid = true ↔
      ∃ t, ledgerFind l (sieveDuplicateKey id userid) = some t ∧ now < t) ∧
    ledgerFind (sieve_duplicate_track l now id userid seconds)
      (sieveDuplicateKey id userid) = some (now + seconds) := by
  constructor
  · unfold sieve_duplicate_check duplicate_check
    cases h : ledgerFind l (sieveDuplicateKey id userid) with
    | none => simp [h]
    | some t =>
        simp only [h]
        constructor
        · intro hb
          simp only [Bool.and_eq_true, decide_eq_true_eq] at hb
          exact ⟨t, rfl, hb.2⟩
        · intro ⟨t', ht', hlt⟩
          cases ht'
          simp only [Bool.and_eq_true, decide_eq_true_eq]
          exact ⟨by omega, hlt⟩
  · unfold sieve_duplicate_track duplicate_mark
    simp [ledgerFind]

/-! ## Claim C10: include-script path-traversal guard -/

/-- C10: an include-script name containing the substring `"../"` is rejected
with `SIEVE_FAIL` before any script path is computed or any filesystem
access occurs (zero `sieve_find_script` lookups). -/
theorem getinclude_traversal_guard (script : String) (isglobal : Bool)
    (domain : Option String) (findRes1 : Int) (statOk : Bool) (findRes2 : Int)
    (h : strstrContains script "../" = true) :
    getinclude script isglobal domain findRes1 statOk findRes2 =
      ⟨SRes.fail, 0⟩ := by
  simp [getinclude, h]

theorem getinclude_traversal_guard_witness :
    strstrContains "evil/../secret" "../" = true ∧
    getinclude "evil/../secret" false none 0 true 0 = ⟨SRes.fail, 0⟩ :=
  ⟨by decide, getinclude_traversal_guard "evil/../secret" false none 0 true 0 (by decide)⟩

/-! ## Claim C5: reject bounce path and return-path handling -/

/-- C5: on the bounce-mail path of `sieve_reject` (non-extended, and inline
rejection disabled or a non-ASCII reason), an empty-string return-path is
logged and yields `SIEVE_OK` without composing or sending a bounce, while an
absent (NULL) return-path yields `SIEVE_FAIL` without sending. -/
theorem sieve_reject_return_path_spec (is_extended use_lmtp : Bool)
    (msg : String) (sendRes : Nat)
    (hext : is_extended = false)
    (hinline : use_lmtp = false ∨ needEncode msg = true) :
    sieve_reject is_extended use_lmtp msg (some "") sendRes =
      ⟨SRes.ok, none, false⟩ ∧
    sieve_reject is_extended use_lmtp msg none sendRes =
      ⟨SRes.fail, none, false⟩ := by
  subst hext
  cases hinline with
  | inl h => subst h; simp [sieve_reject]
  | inr h => simp [sieve_reject, h]

theorem sieve_reject_return_path_spec_witness :
    sieve_reject false false "go away" (some "") 0 = ⟨SRes.ok, none, false⟩ ∧
    sieve_reject false false "go away" none 0 = ⟨SRes.fail, none, false⟩ :=
  sieve_reject_return_path_spec false false "go away" 0 rfl (Or.inl rfl)

/-! ## Claim C4: inline (protocol-level) rejection -/

theorem lmtpRespLines_eq (ls : List String) (h : ls ≠ []) :
    lmtpRespLines ls =
      (ls.dropLast.map (fun l => "550-5.7.1 " ++ l ++ "\r\n")) ++
        ["550 5.7.1 " ++ ls.getLastD "" ++ "\r\n"] := by
  induction ls with
  | nil => exact absurd rfl h
  | cons l rest ih =>
      cases rest with
      | nil => simp [lmtpRespLines]
      | cons l' rest' =>
          have := ih (by simp)
          simp only [lmtpRespLines, this]
          simp [List.dropLast, List.getLastD]

/-- C4: whenever the reject is the extended form, or inline protocol
rejection is enabled and the reason is pure ASCII, `sieve_reject` records the
recipient status as rejected with a response block of `"550-5.7.1 <line>"`
for every reason line but the last and `"550 5.7.1 <line>"` for the last
line, sends no bounce, and returns `SIEVE_OK`; and a non-ASCII reason
without the extended form never records a protocol rejection, even with
inline rejection enabled. -/
theorem sieve_reject_inline_spec (is_extended use_lmtp : Bool) (msg : String)
    (return_path : Option String) (sendRes : Nat) :
    ((is_extended = true ∨ (use_lmtp = true ∧ needEncode msg = false)) →
      rejectLines (if needEncode msg then charset_qpencode_mimebody msg else msg) ≠ [] →
      sieve_reject is_extended use_lmtp msg return_path sendRes =
        ⟨SRes.ok,
         some (((rejectLines (if needEncode msg then charset_qpencode_mimebody msg
                              else msg)).dropLast.map
                  (fun l => "550-5.7.1 " ++ l ++ "\r\n")) ++
               ["550 5.7.1 " ++
                  (rejectLines (if needEncode msg then charset_qpencode_mimebody msg
                                else msg)).getLastD "" ++ "\r\n"]),
         false⟩) ∧
    (needEncode msg = true → is_extended = false →
      (sieve_reject is_extended use_lmtp msg return_path sendRes).rcptStatus = none) := by
  constructor
  · intro hcond hne
    have hbranch : (is_extended || (use_lmtp && !needEncode msg)) = true := by
      cases hcond with
      | inl h => simp [h]
      | inr h => simp [h.1, h.2]
    simp only [sieve_reject, hbranch, if_true]
    rw [lmtpRespLines_eq _ hne]
  · intro henc hext
    subst hext
    simp only [sieve_reject, henc]
    simp only [Bool.false_or, Bool.not_true, Bool.and_false]
    cases return_path with
    | none => rfl
    | some rp =>
        by_cases hrp : rp = ""
        · simp [hrp]
        · by_cases hs : sendRes = 0 <;> simp [hrp, hs]

theorem sieve_reject_inline_spec_witness :
    sieve_reject false true "line one\r\nline two" (some "a@b") 0 =
      ⟨SRes.ok, some ["550-5.7.1 line one\r\n", "550 5.7.1 line two\r\n"], false⟩ := by
  have h := (sieve_reject_inline_spec false true "line one\r\nline two"
      (some "a@b") 0).1 (Or.inr ⟨rfl, by decide⟩) (by decide)
  rw [h]
  decide

/-! ## Claim C3: the redirect ledger key -/

/-- C3 counterexample: the claim says the redirect handler checks and marks
the ledger under key `(message-id, target-address, "")`.  It does not: for
message id `"<a@b>"` redirected to `"c@d"` by user `"alice"` on a message
dated `"Tue, 2 Jan 2024"`, a successful fresh redirect leaves no ledger
record under the spec's key; the record is under
`("<a@b>-c@d", ".alice.sieve.", "Tue, 2 Jan 2024")`. -/
theorem redirect_key_counterexample :
    ledgerFind (sieve_redirect "alice" false "c@d"
        ⟨[], "", "", some "<a@b>", some "s@e", "Tue, 2 Jan 2024"⟩
        true 0 5 ⟨[], 0⟩).2.ledger (specRedirectDupKey "<a@b>" "c@d") = none ∧
    ledgerFind (sieve_redirect "alice" false "c@d"
        ⟨[], "", "", some "<a@b>", some "s@e", "Tue, 2 Jan 2024"⟩
        true 0 5 ⟨[], 0⟩).2.ledger
      (redirectDupKey "alice" "<a@b>" "Tue, 2 Jan 2024" "c@d") = some 5 := by
  constructor <;> decide

/-- C3 (amended): the redirect handler's duplicate-ledger check and mark
both use the key `(id = message-id ++ "-" ++ target-address,
target = the script owner's sieve-db name "." ++ userid ++ ".sieve.",
date = the message's date)`: a nonzero check under that key short-circuits
with `Ok`, and a successful fresh send marks exactly that key. -/
theorem redirect_key_spec (userid mid addr : String) (m : message_data_t)
    (hid : m.id = some mid) (st : RedirectState) (edited specialOk : Bool)
    (sendRes now : Nat) :
    redirectDupKey userid mid m.date addr =
      ⟨mid ++ "-" ++ addr, "." ++ userid ++ ".sieve.", m.date⟩ ∧
    (duplicate_check st.ledger (redirectDupKey userid mid m.date addr) ≠ 0 →
      sieve_redirect userid edited addr m specialOk sendRes now st = (SRes.ok, st)) ∧
    (duplicate_check st.ledger (redirectDupKey userid mid m.date addr) = 0 →
      (edited = true → specialOk = true) → sendRes = 0 →
      (sieve_redirect userid edited addr m specialOk sendRes now st).2.ledger =
        duplicate_mark st.ledger (redirectDupKey userid mid m.date addr) now) := by
  refine ⟨rfl, ?_, ?_⟩
  · intro hchk
    simp [sieve_redirect, hid, hchk]
  · intro hchk hsp hsend
    subst hsend
    cases edited with
    | false => simp [sieve_redirect, hid, hchk]
    | true =>
        have hspk : specialOk = true := hsp rfl
        subst hspk
        simp [sieve_redirect, hid, hchk]

theorem redirect_key_spec_witness :
    redirectDupKey "u" "<m@h>" "" "t@x" = ⟨"<m@h>" ++ "-" ++ "t@x", "." ++ "u" ++ ".sieve.", ""⟩ ∧
    (sieve_redirect "u" false "t@x" ⟨[], "", "", some "<m@h>", none, ""⟩
        true 0 7 ⟨[], 0⟩).2.ledger =
      duplicate_mark [] (redirectDupKey "u" "<m@h>" "" "t@x") 7 := by
  have h := redirect_key_spec "u" "<m@h>" "t@x" ⟨[], "", "", some "<m@h>", none, ""⟩
      rfl ⟨[], 0⟩ false true 0 7
  exact ⟨h.1, h.2.2 (by decide) (fun hc => by cases hc) rfl⟩

/-! ## Claim C2: redirect idempotency -/

/-- C2: for a message with a non-null message id, redirecting twice to the
same target results in exactly one outbound send: the first (fresh,
successful) call sends and marks the ledger; the second call observes the
mark and returns `Ok` with no state change — no second `send_forward`. -/
theorem sieve_redirect_idempotent (userid addr mid : String)
    (m : message_data_t) (hid : m.id = some mid)
    (edited specialOk : Bool) (hsp : edited = true → specialOk = true)
    (now : Nat) (hnow : 0 < now) (st0 : RedirectState)
    (hfresh : duplicate_check st0.ledger (redirectDupKey userid mid m.date addr) = 0) :
    (sieve_redirect userid edited addr m specialOk 0 now st0).1 = SRes.ok ∧
    (sieve_redirect userid edited addr m specialOk 0 now st0).2.sends = st0.sends + 1 ∧
    ∀ edited2 specialOk2 sendRes2 now2,
      sieve_redirect userid edited2 addr m specialOk2 sendRes2 now2
          (sieve_redirect userid edited addr m specialOk 0 now st0).2 =
        (SRes.ok, (sieve_redirect userid edited addr m specialOk 0 now st0).2) := by
  have hrun1 : sieve_redirect userid edited addr m specialOk 0 now st0 =
      (SRes.ok, ⟨duplicate_mark st0.ledger (redirectDupKey userid mid m.date addr) now,
                 st0.sends + 1⟩) := by
    cases edited with
    | false => simp [sieve_redirect, hid, hfresh]
    | true =>
        have hspk : specialOk = true := hsp rfl
        subst hspk
        simp [sieve_redirect, hid, hfresh]
  refine ⟨by rw [hrun1], by rw [hrun1], ?_⟩
  intro edited2 specialOk2 sendRes2 now2
  rw [hrun1]
  have hchk : duplicate_check
      (duplicate_mark st0.ledger (redirectDupKey userid mid m.date addr) now)
      (redirectDupKey userid mid m.date addr) = now := duplicate_check_mark_same _ _ _
  simp only [sieve_redirect, hid]
  rw [if_pos]
  rw [hchk]
  omega

theorem sieve_redirect_idempotent_witness :
    (sieve_redirect "u" false "t@x" ⟨[], "", "", some "<m@h>", none, "D"⟩
        true 0 9 ⟨[], 0⟩).1 = SRes.ok ∧
    (sieve_redirect "u" false "t@x" ⟨[], "", "", some "<m@h>", none, "D"⟩
        true 0 9 ⟨[], 0⟩).2.sends = 0 + 1 ∧
    ∀ edited2 specialOk2 sendRes2 now2,
      sieve_redirect "u" edited2 "t@x" ⟨[], "", "", some "<m@h>", none, "D"⟩
          specialOk2 sendRes2 now2
          (sieve_redirect "u" false "t@x" ⟨[], "", "", some "<m@h>", none, "D"⟩
            true 0 9 ⟨[], 0⟩).2 =
        (SRes.ok, (sieve_redirect "u" false "t@x" ⟨[], "", "", some "<m@h>", none, "D"⟩
            true 0 9 ⟨[], 0⟩).2) :=
  sieve_redirect_idempotent "u" "t@x" "<m@h>" ⟨[], "", "", some "<m@h>", none, "D"⟩
    rfl false true (fun hc => by cases hc) 9 (by omega) ⟨[], 0⟩ (by decide)

/-! ## Claim C6: fileinto autocreate policy -/

theorem autosieve_createfolder_eq (anyfolder : Bool) (autofolders : Option String)
    (u i : String) (do_create : Bool) (createRes : StoreRes) :
    autosieve_createfolder anyfolder autofolders (some u) (some i) do_create createRes =
      (if autocreatePolicy anyfolder autofolders u i do_create then (createRes, true)
       else (StoreRes.nonexistent, false)) := by
  cases autofolders with
  | none =>
      cases anyfolder <;> cases do_create <;> cases createRes <;>
        simp [autosieve_createfolder, autocreatePolicy]
  | some subf =>
      cases anyfolder <;> cases do_create <;> cases createRes <;>
        simp [autosieve_createfolder, autocreatePolicy]


/-- C6: when a fileinto delivery fails with mailbox-nonexistent, autocreation
is attempted exactly when the policy permits it (global any-folder override,
OR the target matches the configured auto-create list, OR the per-rule create
flag), and on successful creation delivery is retried exactly once; when the
policy denies, the action fails with mailbox-nonexistent; and any first
delivery failure other than mailbox-nonexistent is returned as `Fail` with
that error and no autocreate attempt. -/
theorem sieve_fileinto_autocreate_spec (anyfolder : Bool)
    (autofolders : Option String) (mailbox : String) (do_create : Bool)
    (u : String) (edited specialOk : Bool) (hsp : edited = true → specialOk = true)
    (suLookup deliver1 createRes deliver2 : StoreRes) :
    (∀ e, deliver1 = StoreRes.other e →
      sieve_fileinto anyfolder autofolders none mailbox do_create (some u)
          edited specialOk suLookup deliver1 createRes deliver2 =
        ⟨SRes.fail, some (StoreRes.other e), 1, false⟩) ∧
    (deliver1 = StoreRes.nonexistent →
      (sieve_fileinto anyfolder autofolders none mailbox do_create (some u)
          edited specialOk suLookup deliver1 createRes deliver2).createAttempted =
        autocreatePolicy anyfolder autofolders u
          (mboxname_from_external mailbox (some u)) do_create) ∧
    (deliver1 = StoreRes.nonexistent →
      autocreatePolicy anyfolder autofolders u
          (mboxname_from_external mailbox (some u)) do_create = true →
      createRes = StoreRes.ok →
      (sieve_fileinto anyfolder autofolders none mailbox do_create (some u)
          edited specialOk suLookup deliver1 createRes deliver2).deliveries = 2) ∧
    (deliver1 = StoreRes.nonexistent →
      autocreatePolicy anyfolder autofolders u
          (mboxname_from_external mailbox (some u)) do_create = false →
      sieve_fileinto anyfolder autofolders none mailbox do_create (some u)
          edited specialOk suLookup deliver1 createRes deliver2 =
        ⟨SRes.fail, some StoreRes.nonexistent, 1, false⟩) := by
  have hred : sieve_fileinto anyfolder autofolders none mailbox do_create (some u)
      edited specialOk suLookup deliver1 createRes deliver2 =
      sieve_fileinto anyfolder autofolders none mailbox do_create (some u)
      false true suLookup deliver1 createRes deliver2 := by
    cases edited with
    | false => cases specialOk <;> simp [sieve_fileinto]
    | true =>
        have h := hsp rfl
        subst h
        simp [sieve_fileinto]
  have heq := autosieve_createfolder_eq anyfolder autofolders u
      (mboxname_from_external mailbox (some u)) do_create createRes
  refine ⟨?_, ?_, ?_, ?_⟩
  · intro e h1
    subst h1
    rw [hred]
    simp [sieve_fileinto]
  · intro h1
    subst h1
    rw [hred]
    simp only [sieve_fileinto]
    rw [heq]
    cases hpol : autocreatePolicy anyfolder autofolders u
        (mboxname_from_external mailbox (some u)) do_create with
    | true =>
        cases createRes with
        | ok => cases deliver2 <;> simp
        | nonexistent => simp
        | other e => simp
    | false => simp
  · intro h1 hpol hcr
    subst h1; subst hcr
    rw [hred]
    simp only [sieve_fileinto]
    rw [heq, hpol]
    cases deliver2 <;> simp
  · intro h1 hpol
    subst h1
    rw [hred]
    simp only [sieve_fileinto]
    rw [heq, hpol]
    simp

theorem sieve_fileinto_autocreate_spec_witness :
    sieve_fileinto false (some "Spam|Archive") none "Other" false (some "alice")
        false true StoreRes.ok StoreRes.nonexistent StoreRes.ok StoreRes.ok =
      ⟨SRes.fail, some StoreRes.nonexistent, 1, false⟩ ∧
    (sieve_fileinto false (some "Spam|Archive") none "Spam" false (some "alice")
        false true StoreRes.ok StoreRes.nonexistent StoreRes.ok StoreRes.ok).deliveries = 2 :=
  ⟨(sieve_fileinto_autocreate_spec false (some "Spam|Archive") "Other" false "alice"
      false true (fun hc => by cases hc) StoreRes.ok StoreRes.nonexistent
      StoreRes.ok StoreRes.ok).2.2.2 rfl (by decide),
   (sieve_fileinto_autocreate_spec false (some "Spam|Archive") "Spam" false "alice"
      false true (fun hc => by cases hc) StoreRes.ok StoreRes.nonexistent
      StoreRes.ok StoreRes.ok).2.2.1 rfl (by decide) rfl⟩

/-! ## Claim C7: vacation rate limiting -/

/-- C7 counterexample: the claim says the ledger is marked with `now + W`
after the response is composed and sent.  It is marked before: on a fresh
hash at `now = 100` with window `50`, when the SMTP send fails (so no
response is sent), the run still leaves the vacation key marked with expiry
`150` while `sent = false`. -/
theorem vacation_mark_before_send_counterexample :
    (vacationRun [] 100 [171] "u" 50 "<out@h>" "D" 1).sent = false ∧
    (vacationRun [] 100 [171] "u" 50 "<out@h>" "D" 1).ret = SRes.fail ∧
    duplicate_check (vacationRun [] 100 [171] "u" 50 "<out@h>" "D" 1).ledger
      (vacationDupKey [171] "u") = 150 := by
  refine ⟨?_, ?_, ?_⟩ <;> decide

/-- C7 (amended): when no ledger entry exists or the stored expiry is at or
before `now`, the response is allowed and the ledger is marked with expiry
`now + W` at decision time in `autorespond` — before the response is
composed or sent, and therefore even when the send fails; the response is
actually sent exactly when the SMTP send succeeds.  When an entry exists
with expiry strictly in the future, the outcome is suppression with no send
and no new mark.  Consequently an identical triggering hash at `t0` sends,
at `t0+W-1` suppresses, and at `t0+W+1` sends again. -/
theorem vacation_window_spec (l : Ledger) (hash : List Nat) (userid : String)
    (W : Nat) (outmsgid date : String) :
    (∀ now sendRes, duplicate_check l (vacationDupKey hash userid) ≤ now →
      autorespond l now hash userid W =
        (SRes.ok, duplicate_mark l (vacationDupKey hash userid) (now + W)) ∧
      duplicate_check (vacationRun l now hash userid W outmsgid date sendRes).ledger
          (vacationDupKey hash userid) = now + W ∧
      ((vacationRun l now hash userid W outmsgid date sendRes).sent = true ↔
        sendRes = 0)) ∧
    (∀ now sendRes, now < duplicate_check l (vacationDupKey hash userid) →
      vacationRun l now hash userid W outmsgid date sendRes =
        ⟨SRes.done, l, false⟩) ∧
    (0 < W → duplicate_check l (vacationDupKey hash userid) = 0 → ∀ t0, 0 < t0 →
      (vacationRun l t0 hash userid W outmsgid date 0).sent = true ∧
      (vacationRun (vacationRun l t0 hash userid W outmsgid date 0).ledger
          (t0 + W - 1) hash userid W outmsgid date 0).sent = false ∧
      (vacationRun (vacationRun l t0 hash userid W outmsgid date 0).ledger
          (t0 + W - 1) hash userid W outmsgid date 0).ledger =
        (vacationRun l t0 hash userid W outmsgid date 0).ledger ∧
      (vacationRun (vacationRun (vacationRun l t0 hash userid W outmsgid date 0).ledger
          (t0 + W - 1) hash userid W outmsgid date 0).ledger
          (t0 + W + 1) hash userid W outmsgid date 0).sent = true) := by
  have hokey : (⟨outmsgid, make_sieve_db userid, date⟩ : duplicate_key_t) ≠
      vacationDupKey hash userid := by
    intro h
    have hd := congrArg duplicate_key_t.dto h
    simp only [vacationDupKey] at hd
    exact make_sieve_db_ne userid hd
  have hallow : ∀ (l' : Ledger) now,
      duplicate_check l' (vacationDupKey hash userid) ≤ now →
      autorespond l' now hash userid W =
        (SRes.ok, duplicate_mark l' (vacationDupKey hash userid) (now + W)) := by
    intro l' now hle
    by_cases ht : duplicate_check l' (vacationDupKey hash userid) = 0
    · simp [autorespond, ht]
    · have hge : now ≥ duplicate_check l' (vacationDupKey hash userid) := hle
      simp [autorespond, ht, hge]
  have hrunOk : ∀ (l' : Ledger) now,
      duplicate_check l' (vacationDupKey hash userid) ≤ now →
      vacationRun l' now hash userid W outmsgid date 0 =
        ⟨SRes.ok,
         duplicate_mark (duplicate_mark l' (vacationDupKey hash userid) (now + W))
           ⟨outmsgid, make_sieve_db userid, date⟩ now, true⟩ := by
    intro l' now hle
    unfold vacationRun
    rw [hallow l' now hle]
    simp
  have hrunFail : ∀ (l' : Ledger) now sendRes, sendRes ≠ 0 →
      duplicate_check l' (vacationDupKey hash userid) ≤ now →
      vacationRun l' now hash userid W outmsgid date sendRes =
        ⟨SRes.fail, duplicate_mark l' (vacationDupKey hash userid) (now + W), false⟩ := by
    intro l' now sendRes hs hle
    unfold vacationRun
    rw [hallow l' now hle]
    simp [hs]
  have hrunSupp : ∀ (l' : Ledger) now sendRes,
      now < duplicate_check l' (vacationDupKey hash userid) →
      vacationRun l' now hash userid W outmsgid date sendRes =
        ⟨SRes.done, l', false⟩ := by
    intro l' now sendRes hlt
    have ht : duplicate_check l' (vacationDupKey hash userid) ≠ 0 := by omega
    have hnge : ¬ now ≥ duplicate_check l' (vacationDupKey hash userid) := by omega
    simp [vacationRun, autorespond, ht, hnge]
  have hcheckRun : ∀ (l' : Ledger) now,
      duplicate_check l' (vacationDupKey hash userid) ≤ now →
      duplicate_check (vacationRun l' now hash userid W outmsgid date 0).ledger
        (vacationDupKey hash userid) = now + W := by
    intro l' now hle
    rw [hrunOk l' now hle]
    show duplicate_check
        (duplicate_mark (duplicate_mark l' (vacationDupKey hash userid) (now + W))
          ⟨outmsgid, make_sieve_db userid, date⟩ now) (vacationDupKey hash userid) = now + W
    rw [duplicate_check_mark_other _ _ _ _ (Ne.symm hokey).symm.symm]
    exact duplicate_check_mark_same _ _ _
  refine ⟨?_, ?_, ?_⟩
  · intro now sendRes hle
    refine ⟨hallow l now hle, ?_, ?_⟩
    · by_cases hs : sendRes = 0
      · subst hs
        exact hcheckRun l now hle
      · rw [hrunFail l now sendRes hs hle]
        exact duplicate_check_mark_same _ _ _
    · by_cases hs : sendRes = 0
      · subst hs
        rw [hrunOk l now hle]
        simp
      · rw [hrunFail l now sendRes hs hle]
        simp [hs]
  · intro now sendRes hlt
    exact hrunSupp l now sendRes hlt
  · intro hW hfresh t0 ht0
    have hle0 : duplicate_check l (vacationDupKey hash userid) ≤ t0 := by omega
    have hc1 := hcheckRun l t0 hle0
    have hlt2 : t0 + W - 1 <
        duplicate_check (vacationRun l t0 hash userid W outmsgid date 0).ledger
          (vacationDupKey hash userid) := by omega
    have ho2 := hrunSupp (vacationRun l t0 hash userid W outmsgid date 0).ledger
        (t0 + W - 1) 0 hlt2
    have ho2ledger : (vacationRun (vacationRun l t0 hash userid W outmsgid date 0).ledger
        (t0 + W - 1) hash userid W outmsgid date 0).ledger =
        (vacationRun l t0 hash userid W outmsgid date 0).ledger := by
      rw [ho2]
    refine ⟨?_, ?_, ho2ledger, ?_⟩
    · rw [hrunOk l t0 hle0]
    · rw [ho2]
    · rw [ho2ledger]
      have hle3 : duplicate_check (vacationRun l t0 hash userid W outmsgid date 0).ledger
          (vacationDupKey hash userid) ≤ t0 + W + 1 := by omega
      rw [hrunOk _ _ hle3]

theorem vacation_window_spec_witness :
    vacationRun [] 7 [171] "u" 50 "<o@h>" "D" 1 =
      ⟨SRes.fail, duplicate_mark [] (vacationDupKey [171] "u") 57, false⟩ ∧
    (vacationRun [] 7 [171] "u" 50 "<o@h>" "D" 1).sent = false := by
  have h := ((vacation_window_spec [] [171] "u" 50 "<o@h>" "D").1 7 1 (by decide)).2.2
  constructor
  · have h2 := ((vacation_window_spec [] [171] "u" 50 "<o@h>" "D").1 7 1 (by decide)).1
    unfold vacationRun
    rw [h2]
    simp
  · by_contra hc
    simp only [Bool.not_eq_false] at hc
    have := h.mp hc
    omega

/-! ## Claim C9: header folding -/

theorem dumpScan_lb (l : List Char) (i : Nat) (acc : Option Nat)
    (slen m i₀ : Nat) (hi : i₀ ≤ i) (hacc : ∀ q, acc = some q → i₀ ≤ q) :
    i₀ ≤ (dumpScan l i acc slen m).1 ∧
      (∀ q, (dumpScan l i acc slen m).2.1 = some q → i₀ ≤ q) := by
  induction l generalizing i acc with
  | nil => exact ⟨hi, hacc⟩
  | cons c rest ih =>
      by_cases hct : c = '\t'
      · simp only [dumpScan, hct, if_pos rfl]
        exact ⟨hi, hacc⟩
      · by_cases hcs : c = ' '
        · by_cases hh : rest.head? = some ' '
          · simp only [dumpScan, if_neg hct, if_pos hcs, if_pos hh]
            exact ⟨hi, hacc⟩
          · by_cases hsl : slen ≤ m
            · simp only [dumpScan, if_neg hct, if_pos hcs, if_neg hh, if_pos hsl]
              exact ih (i + 1) acc (by omega) hacc
            · by_cases ha : acc = none
              · simp only [dumpScan, if_neg hct, if_pos hcs, if_neg hh, if_neg hsl,
                  if_pos ha]
                exact ih (i + 1) (some i) (by omega)
                  (fun q hq => by cases hq; omega)
              · by_cases him : i ≤ m
                · simp only [dumpScan, if_neg hct, if_pos hcs, if_neg hh, if_neg hsl,
                    if_neg ha, if_pos him]
                  exact ih (i + 1) (some i) (by omega)
                    (fun q hq => by cases hq; omega)
                · simp only [dumpScan, if_neg hct, if_pos hcs, if_neg hh, if_neg hsl,
                    if_neg ha, if_neg him]
                  exact ih (i + 1) acc (by omega) hacc
        · simp only [dumpScan, if_neg hct, if_neg hcs]
          exact ih (i + 1) acc (by omega) hacc

theorem blankRun_zero_head (s : List Char) (hs : s ≠ [])
    (hhead : blankRun s = 0) : ∃ c rest, s = c :: rest ∧ isblank_c c = false := by
  cases s with
  | nil => exact absurd rfl hs
  | cons c rest =>
      refine ⟨c, rest, rfl, ?_⟩
      by_contra hb
      simp only [Bool.not_eq_false] at hb
      simp [blankRun, hb] at hhead

theorem dumpIter_pos (s : List Char) (m : Nat) (hs : s ≠ []) :
    1 ≤ dumpIter s m := by
  unfold dumpIter
  by_cases hbr : blankRun s = 0
  · obtain ⟨c, rest, hcons, hcb⟩ := blankRun_zero_head s hs hbr
    subst hcons
    rw [hbr]
    have hct : c ≠ '\t' := by
      intro h
      subst h
      simp [isblank_c] at hcb
    have hcs : c ≠ ' ' := by
      intro h
      subst h
      simp [isblank_c] at hcb
    simp only [List.drop_zero, dumpScan, if_neg hct, if_neg hcs]
    have hlb := dumpScan_lb rest 1 none ((c :: rest).length) m 1 (le_refl 1)
      (fun q hq => by cases hq)
    rcases hscan : dumpScan rest 1 none ((c :: rest).length) m with ⟨p, sp, e⟩
    rw [hscan] at hlb
    cases e with
    | true =>
        cases sp with
        | none => simpa using hlb.1
        | some q =>
            have := hlb.2 q rfl
            simpa using this
    | false => simpa using hlb.1
  · have hbr1 : 1 ≤ blankRun s := Nat.one_le_iff_ne_zero.mpr hbr
    have hlb := dumpScan_lb (s.drop (blankRun s)) (blankRun s) none s.length m
      (blankRun s) (le_refl _) (fun q hq => by cases hq)
    rcases hscan : dumpScan (s.drop (blankRun s)) (blankRun s) none s.length m
      with ⟨p, sp, e⟩
    rw [hscan] at hlb
    cases e with
    | true =>
        cases sp with
        | none =>
            have h1 := hlb.1
            simp [hscan]
            omega
        | some q =>
            have h2 := hlb.2 q rfl
            simp [hscan]
            omega
    | false =>
        have h1 := hlb.1
        simp [hscan]
        omega

theorem dumpChunksFuel_congr (fuel : Nat) : ∀ (fuel' : Nat) (s : List Char)
    (m : Nat), s.length ≤ fuel → s.length ≤ fuel' →
    dumpChunksFuel fuel s m = dumpChunksFuel fuel' s m := by
  induction fuel with
  | zero =>
      intro fuel' s m h h'
      have : s = [] := List.eq_nil_of_length_eq_zero (by omega)
      subst this
      cases fuel' <;> simp [dumpChunksFuel]
  | succ f ih =>
      intro fuel' s m h h'
      by_cases hs : s = []
      · subst hs
        cases fuel' <;> simp [dumpChunksFuel]
      · have hlen : 1 ≤ s.length := by
          cases s with
          | nil => exact absurd rfl hs
          | cons c rest => simp
        obtain ⟨f', rfl⟩ : ∃ f', fuel' = f' + 1 := by
          cases fuel' with
          | zero => omega
          | succ k => exact ⟨k, rfl⟩
        have hpos := dumpIter_pos s m hs
        have hse : s.isEmpty = false := by
          cases s with
          | nil => exact absurd rfl hs
          | cons c rest => rfl
        simp only [dumpChunksFuel, hse, Bool.false_eq_true, if_false]
        congr 1
        apply ih
        · simp only [List.length_drop]
          omega
        · simp only [List.length_drop]
          omega

theorem dumpChunks_cons (s : List Char) (m : Nat) (hs : s ≠ []) :
    dumpChunks s m =
      s.take (dumpIter s m) :: dumpChunks (s.drop (dumpIter s m)) 78 := by
  have hpos := dumpIter_pos s m hs
  have hlen : 1 ≤ s.length := by
    cases s with
    | nil => exact absurd rfl hs
    | cons c rest => simp
  have hse : s.isEmpty = false := by
    cases s with
    | nil => exact absurd rfl hs
    | cons c rest => rfl
  obtain ⟨n, hn⟩ : ∃ n, s.length = n + 1 := ⟨s.length - 1, by omega⟩
  unfold dumpChunks
  rw [hn]
  simp only [dumpChunksFuel, hse, Bool.false_eq_true, if_false]
  congr 1
  apply dumpChunksFuel_congr
  · simp only [List.length_drop]
    omega
  · exact le_refl _

theorem dumpScan_nospace (l : List Char) :
    (∀ c ∈ l, c ≠ ' ' ∧ c ≠ '\t') →
    ∀ (i : Nat) (acc : Option Nat) (slen m : Nat),
    dumpScan l i acc slen m = (i + l.length, acc, true) := by
  induction l with
  | nil =>
      intro _ i acc slen m
      simp [dumpScan]
  | cons c rest ih =>
      intro h i acc slen m
      have hc := h c (List.mem_cons_self c rest)
      have hrest : ∀ c' ∈ rest, c' ≠ ' ' ∧ c' ≠ '\t' :=
        fun c' hc' => h c' (List.mem_cons_of_mem _ hc')
      simp only [dumpScan, if_neg hc.2, if_neg hc.1]
      rw [ih hrest (i + 1) acc slen m]
      have hl : i + 1 + rest.length = i + (c :: rest).length := by
        simp only [List.length_cons]
        omega
      rw [hl]

theorem dumpScan_break (l : List Char) : ∀ (b : Nat), foldBreakAt l b →
    (∀ j, j < b → ¬ foldBreakAt l j) →
    ∀ (i : Nat) (acc : Option Nat) (slen m : Nat),
    ∃ sp, dumpScan l i acc slen m = (i + b, sp, false) := by
  induction l with
  | nil =>
      intro b hb _ i acc slen m
      rcases hb with h | ⟨h, _⟩ <;> simp [List.get?] at h
  | cons c rest ih =>
      intro b hb hmin i acc slen m
      cases b with
      | zero =>
          rcases hb with h | ⟨h1, h2⟩
          · have hc : c = '\t' := by simpa using h
            exact ⟨acc, by simp [dumpScan, hc]⟩
          · have hc : c = ' ' := by simpa using h1
            have hh : rest.head? = some ' ' := by
              cases rest with
              | nil => simp [List.get?] at h2
              | cons c2 r2 =>
                  have : c2 = ' ' := by simpa [List.get?] using h2
                  simp [this]
            have hct : ¬ c = '\t' := by
              rw [hc]
              decide
            refine ⟨acc, ?_⟩
            simp [dumpScan, hct, hc, hh]
      | succ bq =>
          have hnb0 := hmin 0 (Nat.succ_pos bq)
          have hct : c ≠ '\t' := by
            intro h
            exact hnb0 (Or.inl (by simp [h]))
          have hb' : foldBreakAt rest bq := by
            rcases hb with h | ⟨h1, h2⟩
            · exact Or.inl (by simpa using h)
            · exact Or.inr ⟨by simpa using h1, by simpa using h2⟩
          have hmin' : ∀ j, j < bq → ¬ foldBreakAt rest j := by
            intro j hj hbr
            apply hmin (j + 1) (by omega)
            rcases hbr with h | ⟨h1, h2⟩
            · exact Or.inl (by simpa using h)
            · exact Or.inr ⟨by simpa using h1, by simpa using h2⟩
          have hstep : i + 1 + bq = i + (bq + 1) := by omega
          by_cases hcs : c = ' '
          · have hh : rest.head? ≠ some ' ' := by
              intro hh
              apply hnb0
              right
              constructor
              · simp [hcs]
              · cases rest with
                | nil => simp at hh
                | cons c2 r2 =>
                    have : c2 = ' ' := by simpa using hh
                    simp [this]
            simp only [dumpScan, if_neg hct, if_pos hcs, if_neg hh]
            by_cases hsl : slen ≤ m
            · obtain ⟨sp, hsp⟩ := ih bq hb' hmin' (i + 1) acc slen m
              exact ⟨sp, by rw [if_pos hsl, hsp, hstep]⟩
            · by_cases ha : acc = none
              · obtain ⟨sp, hsp⟩ := ih bq hb' hmin' (i + 1) (some i) slen m
                exact ⟨sp, by rw [if_neg hsl, if_pos ha, hsp, hstep]⟩
              · by_cases him : i ≤ m
                · obtain ⟨sp, hsp⟩ := ih bq hb' hmin' (i + 1) (some i) slen m
                  exact ⟨sp, by rw [if_neg hsl, if_neg ha, if_pos him, hsp, hstep]⟩
                · obtain ⟨sp, hsp⟩ := ih bq hb' hmin' (i + 1) acc slen m
                  exact ⟨sp, by rw [if_neg hsl, if_neg ha, if_neg him, hsp, hstep]⟩
          · obtain ⟨sp, hsp⟩ := ih bq hb' hmin' (i + 1) acc slen m
            refine ⟨sp, ?_⟩
            simp only [dumpScan, if_neg hct, if_neg hcs]
            rw [hsp, hstep]

theorem dumpScan_nobreak (l : List Char) : ∀ (slen m : Nat), ¬ slen ≤ m →
    '\t' ∉ l → hasDblSpace l = false →
    ∀ (i : Nat) (acc : Option Nat) (p : Nat),
    ((acc = some p ∧ ∀ j, j < l.length → i + j ≤ m → l.get? j ≠ some ' ') ∨
     (∃ jp, p = i + jp ∧ jp < l.length ∧ l.get? jp = some ' ' ∧ p ≤ m ∧
       (∀ j, jp < j → j < l.length → i + j ≤ m → l.get? j ≠ some ' ') ∧
       (acc = none ∨ ∃ a, acc = some a ∧ a ≤ m))) →
    dumpScan l i acc slen m = (i + l.length, some p, true) := by
  induction l with
  | nil =>
      intro slen m hslen htab hdbl i acc p hinv
      rcases hinv with ⟨hacc, _⟩ | ⟨jp, _, hjp, _⟩
      · simp [dumpScan, hacc]
      · simp at hjp
  | cons c rest ih =>
      intro slen m hslen htab hdbl i acc p hinv
      have htab' : '\t' ∉ rest := fun h => htab (List.mem_cons_of_mem _ h)
      have hct : c ≠ '\t' := fun h => htab (h ▸ List.mem_cons_self _ _)
      have hdbl' : hasDblSpace rest = false := by
        cases rest with
        | nil => rfl
        | cons c2 r2 =>
            simp only [hasDblSpace, Bool.or_eq_false_iff] at hdbl
            exact hdbl.2
      have hlencons : (c :: rest).length = rest.length + 1 := by simp
      by_cases hcs : c = ' '
      · have hh : rest.head? ≠ some ' ' := by
          intro hh
          cases rest with
          | nil => simp at hh
          | cons c2 r2 =>
              have hc2 : c2 = ' ' := by simpa using hh
              simp [hasDblSpace, hcs, hc2] at hdbl
        simp only [dumpScan, if_neg hct, if_pos hcs, if_neg hh, if_neg hslen]
        rcases hinv with ⟨hacc, hno⟩ | ⟨jp, hpeq, hjplen, hjsp, hpm, hafter, hacc2⟩
        · have him : ¬ i ≤ m := by
            intro him
            exact hno 0 (by simp) (by omega) (by simp [hcs])
          rw [hacc, if_neg (by simp), if_neg him]
          rw [ih slen m hslen htab' hdbl' (i + 1) (some p) p
            (Or.inl ⟨rfl, fun j hj hjm => by
              have := hno (j + 1) (by simp; omega) (by omega)
              simpa using this⟩)]
          simp only [List.length_cons]
          have harith : i + 1 + rest.length = i + (rest.length + 1) := by omega
          rw [harith]
        · cases jp with
          | zero =>
              have hpi : p = i := by simpa using hpeq
              subst hpi
              have hrec : dumpScan rest (p + 1) (some p) slen m =
                  (p + 1 + rest.length, some p, true) := by
                apply ih slen m hslen htab' hdbl' (p + 1) (some p) p
                left
                refine ⟨rfl, fun j hj hjm => ?_⟩
                have := hafter (j + 1) (by omega) (by simp; omega) (by omega)
                simpa using this
              by_cases ha : acc = none
              · rw [if_pos ha, hrec]
                simp only [List.length_cons]
                have harith : p + 1 + rest.length = p + (rest.length + 1) := by omega
                rw [harith]
              · have him : p ≤ m := hpm
                rw [if_neg ha, if_pos him, hrec]
                simp only [List.length_cons]
                have harith : p + 1 + rest.length = p + (rest.length + 1) := by omega
                rw [harith]
          | succ jq =>
              have him : i ≤ m := by omega
              have hrec : dumpScan rest (i + 1) (some i) slen m =
                  (i + 1 + rest.length, some p, true) := by
                apply ih slen m hslen htab' hdbl' (i + 1) (some i) p
                right
                refine ⟨jq, by omega, by simpa using hjplen, by simpa using hjsp,
                  hpm, ?_, Or.inr ⟨i, rfl, him⟩⟩
                intro j hj hjl hjm
                have := hafter (j + 1) (by omega) (by simp; omega) (by omega)
                simpa using this
              by_cases ha : acc = none
              · rw [if_pos ha, hrec]
                simp only [List.length_cons]
                have harith : i + 1 + rest.length = i + (rest.length + 1) := by omega
                rw [harith]
              · rw [if_neg ha, if_pos him, hrec]
                simp only [List.length_cons]
                have harith : i + 1 + rest.length = i + (rest.length + 1) := by omega
                rw [harith]
      · simp only [dumpScan, if_neg hct, if_neg hcs]
        have hrec : dumpScan rest (i + 1) acc slen m =
            (i + 1 + rest.length, some p, true) := by
          apply ih slen m hslen htab' hdbl' (i + 1) acc p
          rcases hinv with ⟨hacc, hno⟩ | ⟨jp, hpeq, hjplen, hjsp, hpm, hafter, hacc2⟩
          · left
            refine ⟨hacc, fun j hj hjm => ?_⟩
            have := hno (j + 1) (by simp; omega) (by omega)
            simpa using this
          · right
            cases jp with
            | zero =>
                exfalso
                apply hcs
                simpa using hjsp
            | succ jq =>
                refine ⟨jq, by omega, by simpa using hjplen, by simpa using hjsp,
                  hpm, ?_, hacc2⟩
                intro j hj hjl hjm
                have := hafter (j + 1) (by omega) (by simp; omega) (by omega)
                simpa using this
        rw [hrec]
        simp only [List.length_cons]
        have harith : i + 1 + rest.length = i + (rest.length + 1) := by omega
        rw [harith]

theorem dumpIter_nobreak (s : List Char) (m p : Nat)
    (htab : '\t' ∉ s) (hdbl : hasDblSpace s = false)
    (hfit : m < s.length) (hhead : blankRun s = 0)
    (hp : nearestSpaceFold s m p) : dumpIter s m = p := by
  have hplen : p < s.length := by
    have := hp.1
    rcases List.get?_eq_some.mp this with ⟨h, _⟩
    exact h
  unfold dumpIter
  rw [hhead]
  simp only [List.drop_zero]
  have hslen : ¬ s.length ≤ m := by omega
  rw [dumpScan_nobreak s s.length m hslen htab hdbl 0 none p
    (Or.inr ⟨p, by omega, hplen, hp.1, hp.2.1,
      fun j h1 h2 h3 => hp.2.2 j h2 h1 (by omega), Or.inl rfl⟩)]
  rfl

theorem dumpIter_break (s : List Char) (m b : Nat)
    (hhead : blankRun s = 0) (hb : foldBreakAt s b)
    (hmin : ∀ j, j < b → ¬ foldBreakAt s j) : dumpIter s m = b := by
  unfold dumpIter
  rw [hhead]
  simp only [List.drop_zero]
  obtain ⟨sp, hsp⟩ := dumpScan_break s b hb hmin 0 none s.length m
  rw [hsp]
  simp

theorem dumpIter_nospace (s : List Char) (m : Nat)
    (h : ∀ c ∈ s, c ≠ ' ' ∧ c ≠ '\t') : dumpIter s m = s.length := by
  have hhead : blankRun s = 0 := by
    cases s with
    | nil => rfl
    | cons c rest =>
        have hc := h c (List.mem_cons_self c rest)
        simp [blankRun, isblank_c, hc.1, hc.2]
  unfold dumpIter
  rw [hhead]
  simp only [List.drop_zero]
  rw [dumpScan_nospace s h 0 none s.length m]
  simp

theorem string_mk_toList (v : String) : String.mk v.toList = v := rfl

/-- C9: `dump_header` folding.  (1) When the value has no tab and no double
space, does not fit in the fold budget, and starts with a non-blank, the
line is folded exactly at the nearest preceding single space at or before
the budget (`nearestSpaceFold`).  (2) A tab or a double space is always
preferred as the fold point over any single space: the first chunk ends at
the first such existing fold point (`foldBreakAt`), whatever the budget.
(3) A long value with no space (no fold point) at all is emitted as one
unfolded line beyond 78 columns. -/
theorem dump_header_folding_spec (name value : String) (p b : Nat) :
    ('\t' ∉ value.toList → hasDblSpace value.toList = false →
      dumpMaxlen name < value.toList.length → blankRun value.toList = 0 →
      nearestSpaceFold value.toList (dumpMaxlen name) p →
      dumpChunks value.toList (dumpMaxlen name) =
        value.toList.take p :: dumpChunks (value.toList.drop p) 78) ∧
    (blankRun value.toList = 0 → foldBreakAt value.toList b →
      (∀ j, j < b → ¬ foldBreakAt value.toList j) →
      dumpChunks value.toList (dumpMaxlen name) =
        value.toList.take b :: dumpChunks (value.toList.drop b) 78) ∧
    ((∀ c ∈ value.toList, c ≠ ' ' ∧ c ≠ '\t') →
      78 < name.length + 2 + value.length →
      dump_header name value = name ++ ": " ++ value ++ "\r\n") := by
  refine ⟨?_, ?_, ?_⟩
  · intro htab hdbl hfit hhead hp
    have hs : value.toList ≠ [] := by
      intro h
      rw [h] at hfit
      simp at hfit
    rw [dumpChunks_cons _ _ hs, dumpIter_nobreak _ _ p htab hdbl hfit hhead hp]
  · intro hhead hb hmin
    have hblen : b < value.toList.length := by
      rcases hb with h | ⟨h, _⟩ <;>
        exact (List.get?_eq_some.mp h).1
    have hs : value.toList ≠ [] := by
      intro h
      rw [h] at hblen
      simp at hblen
    rw [dumpChunks_cons _ _ hs, dumpIter_break _ _ b hhead hb hmin]
  · intro hnosp hlong
    by_cases hs : value.toList = []
    · have hv : value = "" := by
        have := congrArg String.mk hs
        rwa [string_mk_toList] at this
      subst hv
      rfl
    · have hchunks : dumpChunks value.toList (dumpMaxlen name) = [value.toList] := by
        rw [dumpChunks_cons _ _ hs, dumpIter_nospace _ _ hnosp]
        rw [List.take_length, List.drop_length]
        rfl
      unfold dump_header
      rw [charset_encode_mimeheader, hchunks]
      obtain ⟨c, rest, hcons⟩ : ∃ c rest, value.toList = c :: rest := by
        cases hval : value.toList with
        | nil => exact absurd hval hs
        | cons c rest => exact ⟨c, rest, rfl⟩
      have hc := hnosp c (by rw [hcons]; exact List.mem_cons_self c rest)
      have hblank : isblank_c c = false := by
        simp [isblank_c, hc.1, hc.2]
      rw [hcons]
      simp only [List.map, List.head?, hblank, Bool.false_eq_true, if_false,
        String.join]
      rw [← hcons, string_mk_toList]
      simp

theorem dump_header_folding_spec_witness :
    (dumpChunks "aaaaaaaaaaaaaaaaaaaaaaaaaaaaaaaaaaaaaaaaaaaaaaaaaaaaaaaaaaaaaaaaaaaaaa bbbbbbbbb".toList (dumpMaxlen "X") =
      "aaaaaaaaaaaaaaaaaaaaaaaaaaaaaaaaaaaaaaaaaaaaaaaaaaaaaaaaaaaaaaaaaaaaaa bbbbbbbbb".toList.take 70 :: dumpChunks ("aaaaaaaaaaaaaaaaaaaaaaaaaaaaaaaaaaaaaaaaaaaaaaaaaaaaaaaaaaaaaaaaaaaaaa bbbbbbbbb".toList.drop 70) 78) ∧
    (dumpChunks "ab\tcd".toList (dumpMaxlen "X") =
      "ab\tcd".toList.take 2 :: dumpChunks ("ab\tcd".toList.drop 2) 78) ∧
    dump_header "X" "cccccccccccccccccccccccccccccccccccccccccccccccccccccccccccccccccccccccccccccccc" = "X" ++ ": " ++ "cccccccccccccccccccccccccccccccccccccccccccccccccccccccccccccccccccccccccccccccc" ++ "\r\n" :=
  ⟨(dump_header_folding_spec "X" "aaaaaaaaaaaaaaaaaaaaaaaaaaaaaaaaaaaaaaaaaaaaaaaaaaaaaaaaaaaaaaaaaaaaaa bbbbbbbbb" 70 0).1
      (by decide) (by decide) (by decide) (by decide) (by decide),
   (dump_header_folding_spec "X" "ab\tcd" 0 2).2.1
      (by decide) (by decide) (by decide),
   (dump_header_folding_spec "X" "cccccccccccccccccccccccccccccccccccccccccccccccccccccccccccccccccccccccccccccccc" 0 0).2.2 (by decide) (by decide)⟩

/-! ## Claim C1: header edits and what later condition checks see -/

theorem eqIgnoreAsciiCase_refl (l : List Char) : eqIgnoreAsciiCase l l = true := by
  induction l with
  | nil => rfl
  | cons c cs ih => simp [eqIgnoreAsciiCase, ih]

/-- C1 counterexample: the claim says header tests via `getheader` after a
header-add + `keep` see the message unchanged from before the edit.  They do
not: `addheader` appends into the shared `m->hdrcache`, the very store
`getheader` reads.  Concretely, adding `X-Flag: yes` and then keeping makes
a later `getheader "X-Flag"` return `yes`, while before the edit it failed. -/
theorem header_edit_visibility_counterexample :
    getheader ((sieve_keep ((addheader
        ⟨⟨"alice", false⟩,
         ⟨[⟨"Subject", "hi"⟩], "Subject: hi\r\n", "body\r\n",
          some "<m@h>", some "s@e", "D"⟩, []⟩
        (some "X-Flag") (some "yes") (-1)).2) true StoreRes.ok).2).msg
      (some "X-Flag") = (SRes.ok, some ["yes"]) ∧
    getheader (⟨[⟨"Subject", "hi"⟩], "Subject: hi\r\n", "body\r\n",
          some "<m@h>", some "s@e", "D"⟩ : message_data_t)
      (some "X-Flag") = (SRes.fail, none) := by
  constructor <;> decide

/-- C1 (amended): after a header-add followed by `keep`, the original spool
file (raw headers and body) is untouched and the delivered copy is the
re-serialization of the edited header cache plus the original body — so only
the delivered copy carries the serialized edit — but the edited header set IS
visible to later condition checks: `getheader` reads the shared header
cache, which now holds the edit (a fresh header name that failed before the
edit succeeds after it). -/
theorem header_edit_keep_spec (st0 : RunState) (hname hbody : String)
    (idx : Int) (deliverRes : StoreRes) :
    let st1 := (addheader st0 (some hname) (some hbody) idx).2
    let st2 := (sieve_keep st1 true deliverRes).2
    (st2.msg.rawheaders = st0.msg.rawheaders ∧
     st2.msg.rawbody = st0.msg.rawbody) ∧
    st2.msg.hdrcache =
      (if idx < 0 then st0.msg.hdrcache ++ [⟨hname, hbody⟩]
       else ⟨hname, hbody⟩ :: st0.msg.hdrcache) ∧
    (deliverRes = StoreRes.ok →
      st2.delivered = st0.delivered ++
        [serializeHeaders st2.msg.hdrcache ++ st0.msg.rawbody]) ∧
    ((∀ e ∈ st0.msg.hdrcache, hdrNameMatches e.name hname = false) →
      getheader st0.msg (some hname) = (SRes.fail, none) ∧
      getheader st2.msg (some hname) = (SRes.ok, some [hbody])) := by
  intro st1 st2
  have hst1msg : st1.msg = { st0.msg with hdrcache :=
      (if idx < 0 then st0.msg.hdrcache ++ [⟨hname, hbody⟩]
       else ⟨hname, hbody⟩ :: st0.msg.hdrcache) } := by
    show ((addheader st0 (some hname) (some hbody) idx).2).msg = _
    by_cases hidx : idx < 0 <;>
      simp [addheader, hidx, spool_append_header, spool_prepend_header]
  have hst1sd : st1.sd.edited_header = true := by
    show ((addheader st0 (some hname) (some hbody) idx).2).sd.edited_header = true
    by_cases hidx : idx < 0 <;> simp [addheader, hidx]
  have hst2 : st2 = { st1 with delivered :=
      (if deliverRes = StoreRes.ok then
        st1.delivered ++ [restagedContent st1.msg] else st1.delivered) } := by
    show ((sieve_keep st1 true deliverRes).2) = _
    unfold sieve_keep
    rw [if_neg (by simp), hst1sd]
    cases deliverRes <;> simp
  have hst1del : st1.delivered = st0.delivered := by
    show ((addheader st0 (some hname) (some hbody) idx).2).delivered = _
    by_cases hidx : idx < 0 <;> simp [addheader, hidx]
  have hmatch : hdrNameMatches hname hname = true :=
    eqIgnoreAsciiCase_refl hname.toList
  refine ⟨⟨by rw [hst2, hst1msg], by rw [hst2, hst1msg]⟩, by rw [hst2, hst1msg], ?_, ?_⟩
  · intro hok
    subst hok
    rw [hst2, hst1del, hst1msg]
    simp [restagedContent]
  · intro hfresh
    have hfilter : st0.msg.hdrcache.filter
        (fun e => hdrNameMatches e.name hname) = [] := by
      rw [List.filter_eq_nil_iff]
      intro e he
      simp [hfresh e he]
    constructor
    · simp [getheader, msg_getheader, hfilter]
    · rw [hst2, hst1msg]
      by_cases hidx : idx < 0
      · simp [getheader, msg_getheader, hidx, List.filter_append, hfilter, hmatch]
      · simp [getheader, msg_getheader, hidx, hfilter, hmatch]

theorem header_edit_keep_spec_witness :
    getheader (⟨[⟨"Subject", "hi"⟩], "Subject: hi\r\n", "body\r\n",
        some "<m@h>", some "s@e", "D"⟩ : message_data_t)
      (some "X-Flag") = (SRes.fail, none) ∧
    getheader ((sieve_keep ((addheader
        ⟨⟨"alice", false⟩,
         ⟨[⟨"Subject", "hi"⟩], "Subject: hi\r\n", "body\r\n",
          some "<m@h>", some "s@e", "D"⟩, []⟩
        (some "X-Flag") (some "yes") (-1)).2) true StoreRes.ok).2).msg
      (some "X-Flag") = (SRes.ok, some ["yes"]) :=
  (header_edit_keep_spec
      ⟨⟨"alice", false⟩,
       ⟨[⟨"Subject", "hi"⟩], "Subject: hi\r\n", "body\r\n",
        some "<m@h>", some "s@e", "D"⟩, []⟩
      "X-Flag" "yes" (-1) StoreRes.ok).2.2.2 (by decide)

end LmtpSieve
